import Mathlib

/-!
Verification of the EuroFolio portfolio backtesting engine
(`src/lib/backtesting/engine.ts` and the advanced-metrics module).

Dates are modelled as day numbers (`Nat`): the engine only ever compares
ISO `YYYY-MM-DD` strings lexicographically and steps them one day at a
time, which is order-isomorphic to `Nat`.  Monetary amounts, prices and
returns are modelled in exact arithmetic (`ℚ`); the metrics that use
`Math.sqrt` / fractional `Math.pow` live in `ℝ`.  JavaScript truthiness
tests on prices (`if (price)`, `|| null`) are modelled as explicit
zero tests.
-/

attribute [local semireducible] Rat.add Rat.sub Rat.mul Rat.ofScientific Rat.inv

deriving instance DecidableEq for Except

namespace EuroFolio

structure PriceData where
  date : Nat
  close_price : ℚ
deriving DecidableEq

structure PortfolioAllocation where
  asset_id : String
  percentage : ℚ
deriving DecidableEq

structure PerformancePoint where
  date : Nat
  value : ℚ
  dailyReturn : ℚ
  cumulativeReturn : ℚ
deriving DecidableEq

inductive RebalanceFrequency where
  | NEVER | MONTHLY | QUARTERLY | ANNUALLY
deriving DecidableEq

structure BacktestParams where
  startDate : Nat
  endDate : Nat
  initialInvestment : ℚ
  rebalanceFrequency : RebalanceFrequency
deriving DecidableEq

/-- `AssetPriceMap`: a missing key is modelled as the empty series
(the engine treats `undefined` and `[]` identically). -/
abbrev AssetPriceMap := String → List PriceData

/-- The two error kinds of §7 of the spec; the source throws `Error`
with the given message / asset id. -/
inductive BacktestError where
  | validationError : String → BacktestError
  | missingDataError : String → BacktestError
deriving DecidableEq

/-- `allocations.reduce((sum, a) => sum + a.percentage, 0)` -/
def totalAllocation (allocations : List PortfolioAllocation) : ℚ :=
  allocations.foldl (fun sum a => sum + a.percentage) 0

/-- `BacktestEngine.validateInputs` -/
def validateInputs (allocations : List PortfolioAllocation) (priceDataMap : AssetPriceMap)
    (params : BacktestParams) : Except BacktestError Unit :=
  if allocations.length = 0 then
    .error (.validationError "Portfolio must have at least one allocation")
  else if |totalAllocation allocations - 100| > 1/100 then
    .error (.validationError "Portfolio allocations must sum to 100%")
  else if params.initialInvestment ≤ 0 then
    .error (.validationError "Initial investment must be greater than 0")
  else if params.startDate ≥ params.endDate then
    .error (.validationError "Start date must be before end date")
  else
    match allocations.find? (fun a => (priceDataMap a.asset_id).isEmpty) with
    | some a => .error (.missingDataError a.asset_id)
    | none => .ok ()

/-- `BacktestEngine.getDateRange`: the `while (current <= endDate)` loop
emits `[startDate, startDate+1, …, endDate]` (empty when `startDate > endDate`). -/
def getDateRange (startDate endDate : Nat) : List Nat :=
  List.range' startDate (endDate + 1 - startDate)

/-- Stable insertion of one element into a sorted list; building block of
`sortByBool`, the model of JavaScript's stable `Array.prototype.sort`. -/
def insertSorted (le : α → α → Bool) (x : α) : List α → List α
  | [] => [x]
  | y :: ys => if le x y then x :: y :: ys else y :: insertSorted le x ys

/-- Stable sort (model of `Array.prototype.sort` with a comparator). -/
def sortByBool (le : α → α → Bool) (l : List α) : List α :=
  l.foldr (insertSorted le) []

/-- `BacktestEngine.getPrice`.  Note the source's final
`futureData[0]?.close_price || null`: a zero close price in the
nearest-later branch is falsy and therefore yields `null`. -/
def getPrice (priceData : List PriceData) (targetDate : Nat) : Option ℚ :=
  match priceData.find? (fun p => p.date == targetDate) with
  | some exactMatch => some exactMatch.close_price
  | none =>
    match sortByBool (fun a b => decide (b.date ≤ a.date))
        (priceData.filter (fun p => decide (p.date ≤ targetDate))) with
    | p :: _ => some p.close_price
    | [] =>
      match (sortByBool (fun a b => decide (a.date ≤ b.date))
          (priceData.filter (fun p => decide (targetDate ≤ p.date)))).head? with
      | some p => if p.close_price = 0 then none else some p.close_price
      | none => none

/-- The ephemeral `shares` object (`Record<string, number>`), kept in
insertion order like JavaScript object keys. -/
abbrev Shares := List (String × ℚ)

/-- `shares[assetId] = v`: overwrite in place if the key exists,
otherwise append. -/
def setShare (shares : Shares) (assetId : String) (v : ℚ) : Shares :=
  if shares.any (fun e => e.1 = assetId) then
    shares.map (fun e => if e.1 = assetId then (assetId, v) else e)
  else
    shares ++ [(assetId, v)]

/-- `shares[assetId]` lookup. -/
def getShare (shares : Shares) (assetId : String) : Option ℚ :=
  (shares.find? (fun e => e.1 = assetId)).map (fun e => e.2)

/-- The (identical) loop bodies of `initializeShares` and
`rebalancePortfolio`: resolve a price for one allocation and, when the
price is truthy (`if (price)` skips both `null` and `0`), set the
allocation's share count to `(percentage / 100) * amount / price`. -/
def allocStep (priceDataMap : AssetPriceMap) (amount : ℚ) (date : Nat)
    (shares : Shares) (allocation : PortfolioAllocation) : Shares :=
  match getPrice (priceDataMap allocation.asset_id) date with
  | some price =>
      if price ≠ 0 then
        setShare shares allocation.asset_id
          ((allocation.percentage / 100) * amount / price)
      else shares
  | none => shares

/-- `BacktestEngine.initializeShares`. -/
def initializeShares (allocations : List PortfolioAllocation) (priceDataMap : AssetPriceMap)
    (initialInvestment : ℚ) (startDate : Nat) : Shares :=
  allocations.foldl (allocStep priceDataMap initialInvestment startDate) []

/-- `BacktestEngine.shouldRebalance`; `daysDiff` is the exact day
difference (dates are midnight-aligned), a JavaScript `%` (truncating
remainder, `Int.tmod`) of the possibly negative difference. -/
def shouldRebalance (currentDate startDate : Nat) (frequency : RebalanceFrequency) : Bool :=
  match frequency with
  | .NEVER => false
  | .MONTHLY => (((currentDate : Int) - (startDate : Int)).tmod 30) == 0
  | .QUARTERLY => (((currentDate : Int) - (startDate : Int)).tmod 90) == 0
  | .ANNUALLY => (((currentDate : Int) - (startDate : Int)).tmod 365) == 0

/-- `BacktestEngine.rebalancePortfolio` (again `if (price)` skips a zero
or missing price). -/
def rebalancePortfolio (allocations : List PortfolioAllocation) (priceDataMap : AssetPriceMap)
    (portfolioValue : ℚ) (shares : Shares) (currentDate : Nat) : Shares :=
  allocations.foldl (allocStep priceDataMap portfolioValue currentDate) shares

/-- `BacktestEngine.calculatePortfolioValue`. -/
def calculatePortfolioValue (shares : Shares) (priceDataMap : AssetPriceMap)
    (currentDate : Nat) : ℚ :=
  shares.foldl (fun totalValue e =>
    match getPrice (priceDataMap e.1) currentDate with
    | some price => if price ≠ 0 then totalValue + e.2 * price else totalValue
    | none => totalValue) 0

/-- One iteration's share update in `calculateDailyPerformance`:
rebalance when due and not on the first day, using the pre-rebalance
portfolio value. -/
def stepShares (allocations : List PortfolioAllocation) (priceDataMap : AssetPriceMap)
    (frequency : RebalanceFrequency) (startDate : Nat) (i : Nat) (shares : Shares)
    (currentDate : Nat) : Shares :=
  if shouldRebalance currentDate startDate frequency ∧ 0 < i then
    rebalancePortfolio allocations priceDataMap
      (calculatePortfolioValue shares priceDataMap currentDate) shares currentDate
  else shares

/-- The day-by-day loop of `calculateDailyPerformance`, with the loop
index `i`, the running `previousValue` and the mutable `shares`. -/
def simAux (allocations : List PortfolioAllocation) (priceDataMap : AssetPriceMap)
    (initialInvestment : ℚ) (frequency : RebalanceFrequency) (startDate : Nat) :
    Nat → ℚ → Shares → List Nat → List PerformancePoint
  | _, _, _, [] => []
  | i, previousValue, shares, currentDate :: rest =>
    let shares1 := stepShares allocations priceDataMap frequency startDate i shares currentDate
    let portfolioValue := calculatePortfolioValue shares1 priceDataMap currentDate
    let dailyReturn := if 0 < i then (portfolioValue - previousValue) / previousValue else 0
    let cumulativeReturn := (portfolioValue - initialInvestment) / initialInvestment
    { date := currentDate, value := portfolioValue, dailyReturn := dailyReturn,
      cumulativeReturn := cumulativeReturn } ::
      simAux allocations priceDataMap initialInvestment frequency startDate
        (i + 1) portfolioValue shares1 rest

/-- `BacktestEngine.calculateDailyPerformance`. -/
def calculateDailyPerformance (allocations : List PortfolioAllocation)
    (priceDataMap : AssetPriceMap) (dateRange : List Nat) (initialInvestment : ℚ)
    (frequency : RebalanceFrequency) : List PerformancePoint :=
  simAux allocations priceDataMap initialInvestment frequency (dateRange.headD 0)
    0 initialInvestment
    (initializeShares allocations priceDataMap initialInvestment (dateRange.headD 0))
    dateRange

/-- The simulation part of `BacktestEngine.runBacktest`. -/
def simulate (allocations : List PortfolioAllocation) (priceDataMap : AssetPriceMap)
    (params : BacktestParams) : List PerformancePoint :=
  calculateDailyPerformance allocations priceDataMap
    (getDateRange params.startDate params.endDate) params.initialInvestment
    params.rebalanceFrequency

/-- `performanceData.slice(1).map(p => p.dailyReturn || 0)` (a stored
daily return is never `undefined`, and `0 || 0 = 0`). -/
def dailyReturnsOf (performanceData : List PerformancePoint) : List ℚ :=
  (performanceData.drop 1).map (fun p => p.dailyReturn)

/-- `performanceData[performanceData.length - 1]?.value || initialInvestment`
(a zero final value is falsy and falls back to the initial investment). -/
def finalValueOf (performanceData : List PerformancePoint) (initialInvestment : ℚ) : ℚ :=
  match performanceData.getLast? with
  | some p => if p.value = 0 then initialInvestment else p.value
  | none => initialInvestment

/-- `totalReturn` of `calculatePerformanceMetrics`. -/
def totalReturnOf (performanceData : List PerformancePoint) (initialInvestment : ℚ) : ℚ :=
  (finalValueOf performanceData initialInvestment - initialInvestment) / initialInvestment

/-- `annualizedReturn` of `calculatePerformanceMetrics`:
`Math.pow(1 + totalReturn, 365 / totalDays) - 1` guarded by `totalDays > 0`. -/
noncomputable def annualizedReturnOf (performanceData : List PerformancePoint)
    (initialInvestment : ℚ) : ℝ :=
  if 0 < performanceData.length then
    (1 + (totalReturnOf performanceData initialInvestment : ℝ)) ^
      ((365 : ℝ) / (performanceData.length : ℝ)) - 1
  else 0

/-- `reduce((sum, r) => sum + r, 0) / length` of the source. -/
def meanOf (l : List ℚ) : ℚ :=
  (l.foldl (fun sum r => sum + r) 0) / (l.length : ℚ)

/-- `reduce((sum, r) => sum + Math.pow(r - mean, 2), 0) / length`. -/
def varianceOf (l : List ℚ) : ℚ :=
  (l.foldl (fun sum r => sum + (r - meanOf l) ^ 2) 0) / (l.length : ℚ)

/-- `BacktestEngine.calculateVolatility`. -/
noncomputable def calculateVolatility (dailyReturns : List ℚ) : ℝ :=
  if dailyReturns.length = 0 then 0
  else Real.sqrt (varianceOf dailyReturns : ℝ) * Real.sqrt 252

/-- `sharpeRatio` of `calculatePerformanceMetrics` (`riskFreeRate = 0.02`). -/
noncomputable def sharpeRatioOf (performanceData : List PerformancePoint)
    (initialInvestment : ℚ) : ℝ :=
  if 0 < calculateVolatility (dailyReturnsOf performanceData) then
    (annualizedReturnOf performanceData initialInvestment - 0.02) /
      calculateVolatility (dailyReturnsOf performanceData)
  else 0

/-- `BacktestEngine.calculateMaxDrawdown` (the initial
`performanceData[0]?.value || 0` collapses to `headD`-with-default-0,
since a zero head value yields 0 either way). -/
def calculateMaxDrawdown (performanceData : List PerformancePoint) : ℚ :=
  (performanceData.foldl (fun acc point =>
      let peak := if point.value > acc.2 then point.value else acc.2
      let drawdown := (peak - point.value) / peak
      (if drawdown > acc.1 then drawdown else acc.1, peak))
    (0, ((performanceData.head?.map (fun p => p.value)).getD 0))).1

/-- Advanced-metrics helper `calculateAnnualizedReturn` (note: its
`initialValue` is the first point's value, not the initial investment). -/
noncomputable def calculateAnnualizedReturn (performanceData : List PerformancePoint) : ℝ :=
  if performanceData.length = 0 then 0
  else
    let finalValue := ((performanceData.getLast?.map (fun p => p.value)).getD 0 : ℚ)
    let initialValue := ((performanceData.head?.map (fun p => p.value)).getD 0 : ℚ)
    let totalReturn := (finalValue - initialValue) / initialValue
    (1 + (totalReturn : ℝ)) ^ ((365 : ℝ) / (performanceData.length : ℝ)) - 1

/-- Advanced-metrics `calculateDownsideDeviation`. -/
noncomputable def calculateDownsideDeviation (dailyReturns : List ℚ) : ℝ :=
  if (dailyReturns.filter (fun r => decide (r < 0))).length = 0 then 0
  else Real.sqrt (varianceOf (dailyReturns.filter (fun r => decide (r < 0))) : ℝ) *
    Real.sqrt 252

/-- Advanced-metrics `calculateSortinoRatio` (`riskFreeRate = 0.02`). -/
noncomputable def calculateSortinoRatio (performanceData : List PerformancePoint) : ℝ :=
  if performanceData.length = 0 then 0
  else if 0 < calculateDownsideDeviation (dailyReturnsOf performanceData) then
    (calculateAnnualizedReturn performanceData - 0.02) /
      calculateDownsideDeviation (dailyReturnsOf performanceData)
  else 0

/-- Advanced-metrics `calculateGainToLossRatio`; the JavaScript
`Infinity` result is modelled as `⊤` in `WithTop ℚ`. -/
def calculateGainToLossRatio (dailyReturns : List ℚ) : WithTop ℚ :=
  let gains := dailyReturns.filter (fun r => decide (0 < r))
  let losses := dailyReturns.filter (fun r => decide (r < 0))
  if losses.length = 0 then (if 0 < gains.length then ⊤ else 0)
  else if gains.length = 0 then 0
  else
    let averageGain := (gains.foldl (fun sum r => sum + r) 0) / (gains.length : ℚ)
    let averageLoss := |(losses.foldl (fun sum r => sum + r) 0) / (losses.length : ℚ)|
    ((averageGain / averageLoss : ℚ) : WithTop ℚ)

structure DrawdownPeriod where
  startDate : Nat
  endDate : Nat
  peakValue : ℚ
  troughValue : ℚ
  drawdownPercentage : ℚ
  duration : Nat
  recovered : Bool
  recoveryDate : Option Nat
deriving DecidableEq

structure DDState where
  currentPeak : ℚ
  currentPeakDate : Nat
  inDrawdown : Bool
  drawdownStart : Nat
  drawdownTrough : ℚ
  drawdownTroughDate : Nat
deriving DecidableEq

/-- The scanning loop of `analyzeDrawdownPeriods` (index `i` runs over
the tail of the series; the trailing open drawdown is flushed at the
end of the list). -/
def ddAux (ps : List PerformancePoint) : Nat → DDState → List PerformancePoint →
    List DrawdownPeriod
  | _, st, [] =>
    if st.inDrawdown then
      [{ startDate := st.drawdownStart,
         endDate := (ps.getLast?.map (fun p => p.date)).getD 0,
         peakValue := st.currentPeak, troughValue := st.drawdownTrough,
         drawdownPercentage := (st.currentPeak - st.drawdownTrough) / st.currentPeak,
         duration := ps.length - ps.findIdx (fun p => p.date == st.drawdownStart),
         recovered := false, recoveryDate := none }]
    else []
  | i, st, current :: rest =>
    if current.value > st.currentPeak then
      (if st.inDrawdown then
        [{ startDate := st.drawdownStart, endDate := current.date,
           peakValue := st.currentPeak, troughValue := st.drawdownTrough,
           drawdownPercentage := (st.currentPeak - st.drawdownTrough) / st.currentPeak,
           duration := i - ps.findIdx (fun p => p.date == st.drawdownStart),
           recovered := true, recoveryDate := some current.date }]
      else []) ++
      ddAux ps (i + 1)
        { st with currentPeak := current.value, currentPeakDate := current.date,
                  inDrawdown := false } rest
    else if current.value < st.currentPeak then
      if !st.inDrawdown then
        ddAux ps (i + 1)
          { st with inDrawdown := true, drawdownStart := st.currentPeakDate,
                    drawdownTrough := current.value, drawdownTroughDate := current.date } rest
      else if current.value < st.drawdownTrough then
        ddAux ps (i + 1)
          { st with drawdownTrough := current.value, drawdownTroughDate := current.date } rest
      else ddAux ps (i + 1) st rest
    else ddAux ps (i + 1) st rest

/-- Advanced-metrics `analyzeDrawdownPeriods`. -/
def analyzeDrawdownPeriods (performanceData : List PerformancePoint) : List DrawdownPeriod :=
  match performanceData with
  | [] => []
  | p0 :: rest =>
    ddAux performanceData 1
      { currentPeak := p0.value, currentPeakDate := p0.date, inDrawdown := false,
        drawdownStart := 0, drawdownTrough := p0.value, drawdownTroughDate := 0 } rest

/-- The `YYYY-MM` month key (`point.date.substring(0, 7)`), encoded as
`year * 100 + month` via the standard proleptic-Gregorian
days-to-civil-date conversion (day 0 = 1970-01-01).  Numeric order on
the encoding agrees with lexicographic order on the `YYYY-MM` strings. -/
def monthKeyOfDay (n : Nat) : Nat :=
  let z := n + 719468
  let era := z / 146097
  let doe := z % 146097
  let yoe := (doe - doe / 1460 + doe / 36524 - doe / 146096) / 365
  let y := yoe + era * 400
  let doy := doe - (365 * yoe + yoe / 4 - yoe / 100)
  let mp := (5 * doy + 2) / 153
  let m := if mp < 10 then mp + 3 else mp - 9
  (if m ≤ 2 then y + 1 else y) * 100 + m

/-- The sorted list of distinct month keys of a series
(`Object.keys(monthlyData).sort()`). -/
def monthKeys (performanceData : List PerformancePoint) : List Nat :=
  sortByBool (fun a b => decide (a ≤ b))
    ((performanceData.map (fun p => monthKeyOfDay p.date)).dedup)

/-- `monthlyData[monthKey]`: the points of one month, in series order. -/
def monthGroup (performanceData : List PerformancePoint) (k : Nat) : List PerformancePoint :=
  performanceData.filter (fun p => monthKeyOfDay p.date == k)

/-- `monthData[monthData.length - 1].value` (groups are nonempty by
construction, so the default is never used). -/
def lastVal (l : List PerformancePoint) : ℚ :=
  ((l.getLast?.map (fun p => p.value)).getD 0)

structure MonthlyReturn where
  year : Nat
  month : Nat
  ret : ℚ
  value : ℚ
  daysInMonth : Nat
deriving DecidableEq

/-- The per-month loop of `generateMonthlyReturns`, carrying the
previous month's group (`none` for the first month). -/
def mrAux (ps : List PerformancePoint) :
    Option (List PerformancePoint) → List Nat → List MonthlyReturn
  | _, [] => []
  | prev, k :: rest =>
    let monthData := monthGroup ps k
    let monthlyReturn : ℚ :=
      match prev with
      | none => 0
      | some prevMonthData => (lastVal monthData - lastVal prevMonthData) / lastVal prevMonthData
    { year := k / 100, month := k % 100, ret := monthlyReturn,
      value := lastVal monthData, daysInMonth := monthData.length } ::
      mrAux ps (some monthData) rest

/-- Advanced-metrics `generateMonthlyReturns` (the locale-formatted
`monthName` presentation field is omitted). -/
def generateMonthlyReturns (performanceData : List PerformancePoint) : List MonthlyReturn :=
  if performanceData.length = 0 then [] else mrAux performanceData none (monthKeys performanceData)

/-! ### Generic lemmas about the stable sort and about folds -/

theorem insertSorted_perm (le : α → α → Bool) (x : α) (l : List α) :
    List.Perm (insertSorted le x l) (x :: l) := by
  induction l with
  | nil => exact List.Perm.refl _
  | cons y ys ih =>
    simp only [insertSorted]
    split
    · exact List.Perm.refl _
    · exact (List.Perm.cons y ih).trans (List.Perm.swap x y ys)

theorem sortByBool_perm (le : α → α → Bool) (l : List α) : List.Perm (sortByBool le l) l := by
  induction l with
  | nil => exact List.Perm.refl _
  | cons y ys ih =>
    exact (insertSorted_perm le y (sortByBool le ys)).trans (List.Perm.cons y ih)

theorem mem_sortByBool {le : α → α → Bool} {l : List α} {a : α} :
    a ∈ sortByBool le l ↔ a ∈ l :=
  (sortByBool_perm le l).mem_iff

theorem pairwise_insertSorted {le : α → α → Bool}
    (htot : ∀ a b, le a b = true ∨ le b a = true)
    (htrans : ∀ a b c, le a b = true → le b c = true → le a c = true)
    {x : α} {l : List α} (h : l.Pairwise (fun a b => le a b = true)) :
    (insertSorted le x l).Pairwise (fun a b => le a b = true) := by
  induction l with
  | nil => simp [insertSorted]
  | cons y ys ih =>
    rcases List.pairwise_cons.1 h with ⟨hy, hys⟩
    simp only [insertSorted]
    split
    · rename_i hxy
      refine List.pairwise_cons.2 ⟨?_, h⟩
      intro z hz
      rcases List.mem_cons.1 hz with rfl | hz
      · exact hxy
      · exact htrans x y z hxy (hy z hz)
    · rename_i hxy
      refine List.pairwise_cons.2 ⟨?_, ih hys⟩
      intro z hz
      rcases List.mem_cons.1 ((insertSorted_perm le x ys).mem_iff.1 hz) with rfl | hz2
      · rcases htot y z with hyz | hzy
        · exact hyz
        · cases hxy hzy
      · exact hy z hz2

theorem pairwise_sortByBool {le : α → α → Bool}
    (htot : ∀ a b, le a b = true ∨ le b a = true)
    (htrans : ∀ a b c, le a b = true → le b c = true → le a c = true)
    (l : List α) : (sortByBool le l).Pairwise (fun a b => le a b = true) := by
  induction l with
  | nil => simp [sortByBool]
  | cons y ys ih => exact pairwise_insertSorted htot htrans ih

/-- The head of a stably sorted list is `le`-below every element of the
original list. -/
theorem sortByBool_head_min {le : α → α → Bool}
    (htot : ∀ a b, le a b = true ∨ le b a = true)
    (htrans : ∀ a b c, le a b = true → le b c = true → le a c = true)
    {l : List α} {p : α} {rest : List α} (h : sortByBool le l = p :: rest) :
    p ∈ l ∧ ∀ q ∈ l, le p q = true := by
  have hperm := sortByBool_perm le l
  rw [h] at hperm
  constructor
  · exact hperm.mem_iff.1 (List.mem_cons_self p rest)
  · intro q hq
    rcases List.mem_cons.1 (hperm.mem_iff.2 hq) with rfl | hq
    · rcases htot q q with h1 | h1 <;> exact h1
    · have hp := pairwise_sortByBool htot htrans l
      rw [h] at hp
      exact (List.pairwise_cons.1 hp).1 q hq

theorem foldl_add_eq_sum (f : α → ℚ) (l : List α) (c : ℚ) :
    l.foldl (fun sum r => sum + f r) c = c + (l.map f).sum := by
  induction l generalizing c with
  | nil => simp
  | cons x xs ih => simp [ih, add_assoc]

theorem foldl_id_eq_sum (l : List ℚ) (c : ℚ) :
    l.foldl (fun sum r => sum + r) c = c + l.sum := by
  induction l generalizing c with
  | nil => simp
  | cons x xs ih => simp [ih, add_assoc]

/-! ### Characterisation of the price-resolution rule -/

theorem dateLe_total (a b : PriceData) :
    decide (b.date ≤ a.date) = true ∨ decide (a.date ≤ b.date) = true := by
  rcases Nat.le_total a.date b.date with h | h
  · exact Or.inr (decide_eq_true h)
  · exact Or.inl (decide_eq_true h)

theorem dateLe_trans (a b c : PriceData)
    (h1 : decide (b.date ≤ a.date) = true) (h2 : decide (c.date ≤ b.date) = true) :
    decide (c.date ≤ a.date) = true :=
  decide_eq_true (le_trans (of_decide_eq_true h2) (of_decide_eq_true h1))

theorem dateGe_total (a b : PriceData) :
    decide (a.date ≤ b.date) = true ∨ decide (b.date ≤ a.date) = true := by
  rcases dateLe_total a b with h | h
  · exact Or.inr h
  · exact Or.inl h

theorem dateGe_trans (a b c : PriceData)
    (h1 : decide (a.date ≤ b.date) = true) (h2 : decide (b.date ≤ c.date) = true) :
    decide (a.date ≤ c.date) = true :=
  decide_eq_true (le_trans (of_decide_eq_true h1) (of_decide_eq_true h2))

theorem getPrice_exact (pd : List PriceData) (t : Nat) (h : ∃ p ∈ pd, p.date = t) :
    ∃ p ∈ pd, p.date = t ∧ getPrice pd t = some p.close_price := by
  obtain ⟨p, hp, hdate⟩ := h
  have hsome : (pd.find? (fun q => q.date == t)).isSome := by
    apply List.find?_isSome.2
    exact ⟨p, hp, by simp [hdate]⟩
  obtain ⟨q, hq⟩ := Option.isSome_iff_exists.1 hsome
  refine ⟨q, List.mem_of_find?_eq_some hq, by simpa using List.find?_some hq, ?_⟩
  simp [getPrice, hq]

theorem getPrice_previous (pd : List PriceData) (t : Nat)
    (hnoex : ∀ p ∈ pd, p.date ≠ t) (hex : ∃ p ∈ pd, p.date ≤ t) :
    ∃ p ∈ pd, p.date ≤ t ∧ (∀ q ∈ pd, q.date ≤ t → q.date ≤ p.date) ∧
      getPrice pd t = some p.close_price := by
  have hfind : pd.find? (fun q => q.date == t) = none :=
    List.find?_eq_none.2 (fun q hq => by simpa using hnoex q hq)
  cases hs : sortByBool (fun a b => decide (b.date ≤ a.date))
      (pd.filter (fun p => decide (p.date ≤ t))) with
  | nil =>
    exfalso
    obtain ⟨p, hp, hple⟩ := hex
    have hmem : p ∈ pd.filter (fun p => decide (p.date ≤ t)) :=
      List.mem_filter.2 ⟨hp, decide_eq_true hple⟩
    have hmem2 : p ∈ sortByBool (fun a b => decide (b.date ≤ a.date))
        (pd.filter (fun p => decide (p.date ≤ t))) := mem_sortByBool.2 hmem
    rw [hs] at hmem2
    cases hmem2
  | cons p rest =>
    obtain ⟨hpF, hmin⟩ := sortByBool_head_min dateLe_total dateLe_trans hs
    rcases List.mem_filter.1 hpF with ⟨hpmem, hple⟩
    refine ⟨p, hpmem, of_decide_eq_true hple, ?_, ?_⟩
    · intro q hq hqle
      have hqF : q ∈ pd.filter (fun p => decide (p.date ≤ t)) :=
        List.mem_filter.2 ⟨hq, decide_eq_true hqle⟩
      exact of_decide_eq_true (hmin q hqF)
    · simp [getPrice, hfind, hs]

theorem getPrice_future (pd : List PriceData) (t : Nat)
    (hnoprev : ∀ p ∈ pd, ¬ p.date ≤ t) (hne : pd ≠ []) :
    ∃ p ∈ pd, t ≤ p.date ∧ (∀ q ∈ pd, p.date ≤ q.date) ∧
      getPrice pd t = (if p.close_price = 0 then none else some p.close_price) := by
  have hfind : pd.find? (fun q => q.date == t) = none := by
    refine List.find?_eq_none.2 (fun q hq => ?_)
    simp only [beq_iff_eq]
    intro hqt
    exact hnoprev q hq (le_of_eq hqt)
  have hfilt : pd.filter (fun p => decide (p.date ≤ t)) = [] := by
    rw [List.filter_eq_nil_iff]
    intro q hq
    simpa using hnoprev q hq
  have hfull : pd.filter (fun p => decide (t ≤ p.date)) = pd := by
    rw [List.filter_eq_self]
    intro q hq
    exact decide_eq_true (le_of_lt (lt_of_not_le (hnoprev q hq)))
  cases hs : sortByBool (fun a b => decide (a.date ≤ b.date))
      (pd.filter (fun p => decide (t ≤ p.date))) with
  | nil =>
    exfalso
    obtain ⟨p, hp⟩ := List.exists_mem_of_ne_nil pd hne
    have hmem : p ∈ pd.filter (fun p => decide (t ≤ p.date)) := by rw [hfull]; exact hp
    have hmem2 : p ∈ sortByBool (fun a b => decide (a.date ≤ b.date))
        (pd.filter (fun p => decide (t ≤ p.date))) := mem_sortByBool.2 hmem
    rw [hs] at hmem2
    cases hmem2
  | cons p rest =>
    obtain ⟨hpF, hmin⟩ := sortByBool_head_min dateGe_total dateGe_trans hs
    rcases List.mem_filter.1 hpF with ⟨hpmem, hple⟩
    refine ⟨p, hpmem, of_decide_eq_true hple, ?_, ?_⟩
    · intro q hq
      have hqF : q ∈ pd.filter (fun p => decide (t ≤ p.date)) := by rw [hfull]; exact hq
      exact of_decide_eq_true (hmin q hqF)
    · have h0 : sortByBool (fun a b => decide (b.date ≤ a.date)) ([] : List PriceData) = [] := rfl
      simp [getPrice, hfind, hfilt, h0, hs]

/-- Every price `getPrice` returns is the close price of some entry of the
series. -/
theorem getPrice_mem (pd : List PriceData) (t : Nat) (c : ℚ)
    (h : getPrice pd t = some c) : ∃ q ∈ pd, q.close_price = c := by
  by_cases hexact : ∃ p ∈ pd, p.date = t
  · obtain ⟨p, hp, _, hgp⟩ := getPrice_exact pd t hexact
    rw [hgp] at h
    exact ⟨p, hp, by simpa using h⟩
  · push_neg at hexact
    by_cases hex : ∃ p ∈ pd, p.date ≤ t
    · obtain ⟨p, hp, _, _, hgp⟩ := getPrice_previous pd t hexact hex
      rw [hgp] at h
      exact ⟨p, hp, by simpa using h⟩
    · push_neg at hex
      have hne : pd ≠ [] := by
        intro hnil
        rw [hnil, show getPrice ([] : List PriceData) t = none from rfl] at h
        cases h
      obtain ⟨p, hp, _, _, hgp⟩ := getPrice_future pd t (fun p hpm => not_le.2 (hex p hpm)) hne
      rw [hgp] at h
      by_cases hz : p.close_price = 0
      · rw [if_pos hz] at h; cases h
      · rw [if_neg hz] at h; exact ⟨p, hp, by simpa using h⟩

/-- On a non-empty series with no zero close price, `getPrice` always
resolves. -/
theorem getPrice_isSome (pd : List PriceData) (t : Nat) (hne : pd ≠ [])
    (hnz : ∀ q ∈ pd, q.close_price ≠ 0) : (getPrice pd t).isSome = true := by
  by_cases hex : ∃ p ∈ pd, p.date ≤ t
  · by_cases hexact : ∃ p ∈ pd, p.date = t
    · obtain ⟨p, _, _, hgp⟩ := getPrice_exact pd t hexact
      simp [hgp]
    · push_neg at hexact
      obtain ⟨p, _, _, _, hgp⟩ := getPrice_previous pd t hexact hex
      simp [hgp]
  · push_neg at hex
    obtain ⟨p, hpmem, _, _, hgp⟩ := getPrice_future pd t (fun p hp => not_le.2 (hex p hp)) hne
    rw [hgp, if_neg (hnz p hpmem)]
    simp

/-! ### Lemmas about the shares map and the allocation folds -/

theorem getShare_setShare_self (sh : Shares) (k : String) (v : ℚ) :
    getShare (setShare sh k v) k = some v := by
  unfold setShare
  split
  · rename_i hany
    unfold getShare
    induction sh with
    | nil => simp at hany
    | cons e es ih =>
      by_cases he : e.1 = k
      · simp [List.find?_cons, he]
      · have hany2 : es.any (fun e => decide (e.1 = k)) = true := by
          rcases List.any_eq_true.1 hany with ⟨x, hx, hxk⟩
          rcases List.mem_cons.1 hx with rfl | hx2
          · exact absurd (of_decide_eq_true hxk) he
          · exact List.any_eq_true.2 ⟨x, hx2, hxk⟩
        simpa [List.find?_cons, he] using ih hany2
  · unfold getShare
    rename_i hany
    induction sh with
    | nil => simp
    | cons e es ih =>
      have he : ¬ e.1 = k := by
        intro hek
        exact hany (List.any_eq_true.2 ⟨e, List.mem_cons_self e es, decide_eq_true hek⟩)
      have hany2 : ¬ es.any (fun e => decide (e.1 = k)) = true := by
        intro h2
        rcases List.any_eq_true.1 h2 with ⟨x, hx, hxk⟩
        exact hany (List.any_eq_true.2 ⟨x, List.mem_cons_of_mem e hx, hxk⟩)
      simpa [List.find?_cons, he] using ih hany2

theorem getShare_setShare_other (sh : Shares) (k k2 : String) (v : ℚ) (hk : k ≠ k2) :
    getShare (setShare sh k2 v) k = getShare sh k := by
  have hmap : ∀ l : Shares,
      List.find? (fun e => decide (e.1 = k)) (l.map (fun e => if e.1 = k2 then (k2, v) else e)) =
        List.find? (fun e => decide (e.1 = k)) l := by
    intro l
    induction l with
    | nil => rfl
    | cons e es ih =>
      by_cases he : e.1 = k2
      · have h1 : ¬ ((k2, v).1 = k) := fun h => hk h.symm
        have h2 : ¬ (e.1 = k) := by rw [he]; exact fun h => hk h.symm
        rw [List.map_cons, if_pos he, List.find?_cons_of_neg _ (by simpa using h1),
          List.find?_cons_of_neg _ (by simpa using h2), ih]
      · rw [List.map_cons, if_neg he]
        by_cases hek : e.1 = k
        · rw [List.find?_cons_of_pos _ (by simpa using hek),
            List.find?_cons_of_pos _ (by simpa using hek)]
        · rw [List.find?_cons_of_neg _ (by simpa using hek),
            List.find?_cons_of_neg _ (by simpa using hek), ih]
  unfold setShare getShare
  split
  · rw [hmap]
  · rw [List.find?_append]
    have h3 : List.find? (fun e => decide (e.1 = k)) [(k2, v)] = none := by
      rw [List.find?_cons_of_neg _ (by simpa using fun h => hk h.symm)]
      rfl
    rw [h3]
    simp

theorem getShare_isSome_setShare (sh : Shares) (k k2 : String) (v : ℚ)
    (h : (getShare sh k).isSome = true) : (getShare (setShare sh k2 v) k).isSome = true := by
  by_cases hk : k = k2
  · subst hk
    rw [getShare_setShare_self]
    rfl
  · rwa [getShare_setShare_other sh k k2 v hk]

theorem getShare_isSome_allocStep (pm : AssetPriceMap) (amount : ℚ) (d : Nat)
    (sh : Shares) (b : PortfolioAllocation) (k : String)
    (h : (getShare sh k).isSome = true) :
    (getShare (allocStep pm amount d sh b) k).isSome = true := by
  unfold allocStep
  cases getPrice (pm b.asset_id) d with
  | none => exact h
  | some price =>
    by_cases hz : price ≠ 0
    · simpa [hz] using getShare_isSome_setShare sh k b.asset_id _ h
    · simpa [hz] using h

theorem foldl_allocStep_isSome (pm : AssetPriceMap) (amount : ℚ) (d : Nat)
    (allocs : List PortfolioAllocation) (k : String) :
    ∀ sh : Shares, (getShare sh k).isSome = true →
      (getShare (allocs.foldl (allocStep pm amount d) sh) k).isSome = true := by
  induction allocs with
  | nil => intro sh h; exact h
  | cons b bs ih =>
    intro sh h
    exact ih _ (getShare_isSome_allocStep pm amount d sh b k h)

theorem foldl_allocStep_preserve (pm : AssetPriceMap) (amount : ℚ) (d : Nat)
    (allocs : List PortfolioAllocation) (k : String) (hk : ∀ b ∈ allocs, b.asset_id ≠ k) :
    ∀ sh : Shares, getShare (allocs.foldl (allocStep pm amount d) sh) k = getShare sh k := by
  induction allocs with
  | nil => intro sh; rfl
  | cons b bs ih =>
    intro sh
    have hb : b.asset_id ≠ k := hk b (List.mem_cons_self b bs)
    have hstep : getShare (allocStep pm amount d sh b) k = getShare sh k := by
      unfold allocStep
      cases getPrice (pm b.asset_id) d with
      | none => rfl
      | some price =>
        by_cases hz : price ≠ 0
        · simpa [hz] using getShare_setShare_other sh k b.asset_id _ (fun h => hb h.symm)
        · simp [hz]
    rw [List.foldl_cons, ih (fun x hx => hk x (List.mem_cons_of_mem b hx)), hstep]

/-- After the allocation fold, an allocation with a truthy resolved price
holds exactly `(percentage / 100) * amount / price` shares, provided asset
ids are distinct. -/
theorem foldl_allocStep_getShare (pm : AssetPriceMap) (amount : ℚ) (d : Nat)
    (allocs : List PortfolioAllocation) (a : PortfolioAllocation) (p : ℚ)
    (hnd : (allocs.map (fun x => x.asset_id)).Nodup) (ha : a ∈ allocs)
    (hp : getPrice (pm a.asset_id) d = some p) (hpz : p ≠ 0) :
    ∀ sh : Shares, getShare (allocs.foldl (allocStep pm amount d) sh) a.asset_id =
      some ((a.percentage / 100) * amount / p) := by
  induction allocs with
  | nil => cases ha
  | cons b bs ih =>
    intro sh
    rcases List.mem_cons.1 ha with rfl | ha2
    · simp only [List.map_cons] at hnd
      have hk : ∀ x ∈ bs, x.asset_id ≠ a.asset_id := by
        intro x hx h
        apply (List.nodup_cons.1 hnd).1
        rw [← h]
        exact List.mem_map_of_mem (fun y => y.asset_id) hx
      rw [List.foldl_cons, foldl_allocStep_preserve pm amount d bs a.asset_id hk]
      have hstep : allocStep pm amount d sh a =
          setShare sh a.asset_id ((a.percentage / 100) * amount / p) := by
        unfold allocStep
        rw [hp]
        simp [hpz]
      rw [hstep, getShare_setShare_self]
    · rw [List.foldl_cons]
      simp only [List.map_cons] at hnd
      exact ih (List.nodup_cons.1 hnd).2 ha2 _

/-! ### Shape lemmas about the daily simulation loop -/

theorem simAux_map_date (A : List PortfolioAllocation) (pm : AssetPriceMap) (I : ℚ)
    (f : RebalanceFrequency) (s : Nat) (ds : List Nat) :
    ∀ (i : Nat) (prev : ℚ) (sh : Shares),
      (simAux A pm I f s i prev sh ds).map (fun p => p.date) = ds := by
  induction ds with
  | nil => intro i prev sh; rfl
  | cons d rest ih => intro i prev sh; simp only [simAux, List.map_cons, ih]

theorem simAux_length (A : List PortfolioAllocation) (pm : AssetPriceMap) (I : ℚ)
    (f : RebalanceFrequency) (s : Nat) (ds : List Nat) (i : Nat) (prev : ℚ) (sh : Shares) :
    (simAux A pm I f s i prev sh ds).length = ds.length := by
  have h := congrArg List.length (simAux_map_date A pm I f s ds i prev sh)
  simpa using h

theorem simAux_cumulativeReturn (A : List PortfolioAllocation) (pm : AssetPriceMap) (I : ℚ)
    (f : RebalanceFrequency) (s : Nat) (ds : List Nat) :
    ∀ (i : Nat) (prev : ℚ) (sh : Shares) (j : Nat) (h : j < (simAux A pm I f s i prev sh ds).length),
      ((simAux A pm I f s i prev sh ds).get ⟨j, h⟩).cumulativeReturn =
        (((simAux A pm I f s i prev sh ds).get ⟨j, h⟩).value - I) / I := by
  induction ds with
  | nil => intro i prev sh j h; simp [simAux] at h
  | cons d rest ih =>
    intro i prev sh j h
    cases j with
    | zero => simp [simAux]
    | succ j => simpa only [simAux, List.get_cons_succ] using ih (i + 1) _ _ j _

theorem simAux_first_dailyReturn (A : List PortfolioAllocation) (pm : AssetPriceMap) (I : ℚ)
    (f : RebalanceFrequency) (s : Nat) (prev : ℚ) (sh : Shares) (ds : List Nat)
    (h : 0 < (simAux A pm I f s 0 prev sh ds).length) :
    ((simAux A pm I f s 0 prev sh ds).get ⟨0, h⟩).dailyReturn = 0 := by
  cases ds with
  | nil => simp [simAux] at h
  | cons d rest => simp [simAux]

theorem simAux_dailyReturn_succ (A : List PortfolioAllocation) (pm : AssetPriceMap) (I : ℚ)
    (f : RebalanceFrequency) (s : Nat) (ds : List Nat) :
    ∀ (i : Nat) (prev : ℚ) (sh : Shares) (j : Nat)
      (h : j + 1 < (simAux A pm I f s i prev sh ds).length),
      ((simAux A pm I f s i prev sh ds).get ⟨j + 1, h⟩).dailyReturn =
        (((simAux A pm I f s i prev sh ds).get ⟨j + 1, h⟩).value -
            ((simAux A pm I f s i prev sh ds).get ⟨j, Nat.lt_of_succ_lt h⟩).value) /
          ((simAux A pm I f s i prev sh ds).get ⟨j, Nat.lt_of_succ_lt h⟩).value := by
  induction ds with
  | nil => intro i prev sh j h; simp [simAux] at h
  | cons d rest ih =>
    intro i prev sh j h
    cases j with
    | zero =>
      cases rest with
      | nil =>
        have := simAux_length A pm I f s (d :: []) i prev sh
        rw [this] at h
        exact absurd h (by simp)
      | cons d2 rest2 => simp [simAux]
    | succ j => simpa only [simAux, List.get_cons_succ] using ih (i + 1) _ _ j _

theorem simAux_get_date (A : List PortfolioAllocation) (pm : AssetPriceMap) (I : ℚ)
    (f : RebalanceFrequency) (s : Nat) (ds : List Nat) :
    ∀ (i : Nat) (prev : ℚ) (sh : Shares) (j : Nat)
      (h : j < (simAux A pm I f s i prev sh ds).length) (h2 : j < ds.length),
      ((simAux A pm I f s i prev sh ds).get ⟨j, h⟩).date = ds.get ⟨j, h2⟩ := by
  induction ds with
  | nil => intro i prev sh j h h2; simp at h2
  | cons d rest ih =>
    intro i prev sh j h h2
    cases j with
    | zero => simp [simAux]
    | succ j => simpa only [simAux, List.get_cons_succ] using ih (i + 1) _ _ j _ _

/-! ### The validation predicate -/

theorem validateInputs_ok_iff (allocations : List PortfolioAllocation)
    (pm : AssetPriceMap) (params : BacktestParams) :
    validateInputs allocations pm params = .ok () ↔
      (allocations ≠ [] ∧ |totalAllocation allocations - 100| ≤ 1/100 ∧
       0 < params.initialInvestment ∧ params.startDate < params.endDate ∧
       ∀ a ∈ allocations, pm a.asset_id ≠ []) := by
  unfold validateInputs
  split_ifs with h1 h2 h3 h4
  · simp [List.length_eq_zero.1 h1]
  · simp only [reduceCtorEq, false_iff]
    intro hc
    exact absurd hc.2.1 (not_le.2 h2)
  · simp only [reduceCtorEq, false_iff]
    intro hc
    exact absurd hc.2.2.1 (by simpa using h3)
  · simp only [reduceCtorEq, false_iff]
    intro hc
    exact absurd hc.2.2.2.1 (by omega)
  · cases hfind : allocations.find? (fun a => (pm a.asset_id).isEmpty) with
    | some a =>
      simp only [reduceCtorEq, false_iff]
      intro hc
      have hmem := List.mem_of_find?_eq_some hfind
      have hempty := List.find?_some hfind
      exact hc.2.2.2.2 a hmem (by simpa [List.isEmpty_iff] using hempty)
    | none =>
      simp only [true_iff]
      refine ⟨by simpa [← List.length_eq_zero] using h1, not_lt.1 h2, by simpa using h3, by omega, ?_⟩
      intro a ha
      have := List.find?_eq_none.1 hfind a ha
      simpa [List.isEmpty_iff] using this

/-! ### Concrete inputs used by scenario claims and witnesses -/

/-- Scenario B price series: `[100, 110, 90, 120]` on four consecutive days. -/
def pdScenB : List PriceData := [⟨0, 100⟩, ⟨1, 110⟩, ⟨2, 90⟩, ⟨3, 120⟩]

def pmScenB : AssetPriceMap := fun s => if s = "A" then pdScenB else []

def allocScenB : List PortfolioAllocation := [⟨"A", 100⟩]

def paramsScenB : BacktestParams := ⟨0, 3, 1000, .NEVER⟩

/-- Scenario C price series: data stops 10 days before the requested end. -/
def pdScenC : List PriceData := [⟨0, 100⟩, ⟨1, 110⟩]

def pmScenC : AssetPriceMap := fun s => if s = "A" then pdScenC else []

def paramsScenC : BacktestParams := ⟨0, 11, 1000, .NEVER⟩

/-- A non-empty series whose only (later-dated) entry has a zero close
price: the `|| null` fallback of `getPrice` turns it into `null`. -/
def pdZero : List PriceData := [⟨5, 0⟩]

def pmZero : AssetPriceMap := fun s => if s = "B" then pdZero else []

/-! ### Claims -/

/-- C1: for every valid input, `simulate` over `[startDate, endDate]` emits
exactly one `PerformancePoint` per calendar day, inclusive of both endpoints
(the j-th point falls on day `startDate + j` and there are
`endDate + 1 - startDate` points); each point's `dailyReturn` equals
`(value - previousValue) / previousValue` with `0` on the first day, and its
`cumulativeReturn` equals
`(value - initialInvestment) / initialInvestment`. -/
theorem claim_C1 (allocations : List PortfolioAllocation) (pm : AssetPriceMap)
    (params : BacktestParams) (_hok : validateInputs allocations pm params = .ok ()) :
    (simulate allocations pm params).length = params.endDate + 1 - params.startDate ∧
    (∀ (j : Nat) (h : j < (simulate allocations pm params).length),
      ((simulate allocations pm params).get ⟨j, h⟩).date = params.startDate + j) ∧
    (∀ h : 0 < (simulate allocations pm params).length,
      ((simulate allocations pm params).get ⟨0, h⟩).dailyReturn = 0) ∧
    (∀ (j : Nat) (h : j + 1 < (simulate allocations pm params).length),
      ((simulate allocations pm params).get ⟨j + 1, h⟩).dailyReturn =
        (((simulate allocations pm params).get ⟨j + 1, h⟩).value -
            ((simulate allocations pm params).get ⟨j, Nat.lt_of_succ_lt h⟩).value) /
          ((simulate allocations pm params).get ⟨j, Nat.lt_of_succ_lt h⟩).value) ∧
    (∀ (j : Nat) (h : j < (simulate allocations pm params).length),
      ((simulate allocations pm params).get ⟨j, h⟩).cumulativeReturn =
        (((simulate allocations pm params).get ⟨j, h⟩).value - params.initialInvestment) /
          params.initialInvestment) := by
  simp only [simulate, calculateDailyPerformance]
  refine ⟨?_, ?_, ?_, ?_, ?_⟩
  · rw [simAux_length, getDateRange, List.length_range']
  · intro j h
    have h2 : j < (getDateRange params.startDate params.endDate).length := by
      rwa [simAux_length] at h
    rw [simAux_get_date _ _ _ _ _ _ _ _ _ j h h2]
    simp [getDateRange, List.get_eq_getElem, List.getElem_range']
  · intro h
    exact simAux_first_dailyReturn _ _ _ _ _ _ _ _ h
  · intro j h
    exact simAux_dailyReturn_succ _ _ _ _ _ _ _ _ _ j h
  · intro j h
    exact simAux_cumulativeReturn _ _ _ _ _ _ _ _ _ j h

/-- Witness for C1 at the scenario-B input. -/
theorem claim_C1_witness :
    validateInputs allocScenB pmScenB paramsScenB = .ok () ∧
      (simulate allocScenB pmScenB paramsScenB).length = 4 :=
  ⟨by decide, (claim_C1 allocScenB pmScenB paramsScenB (by decide)).1⟩

/-- C6: for scenario B (single asset with prices `[100, 110, 90, 120]` on four
consecutive days, one 100% allocation, initial investment 1000, no rebalance)
the emitted daily values are `[1000, 1100, 900, 1200]`, the maximum drawdown
is `(1100 - 900) / 1100`, and exactly one drawdown period is produced,
spanning day 2 (date 1) to day 4 (date 3) with `recovered = true`. -/
theorem claim_C6 :
    (simulate allocScenB pmScenB paramsScenB).map (fun p => p.value) =
      [1000, 1100, 900, 1200] ∧
    calculateMaxDrawdown (simulate allocScenB pmScenB paramsScenB) = (1100 - 900) / 1100 ∧
    analyzeDrawdownPeriods (simulate allocScenB pmScenB paramsScenB) =
      [{ startDate := 1, endDate := 3, peakValue := 1100, troughValue := 900,
         drawdownPercentage := (1100 - 900) / 1100, duration := 2, recovered := true,
         recoveryDate := some 3 }] :=
  ⟨by decide, by decide, by decide⟩

/-- C3: `validateInputs` fails exactly when the allocation list is empty, the
percentages sum outside the `0.01` tolerance of 100, the initial investment is
non-positive, the date range is not strictly increasing, or some allocated
asset has an empty price series; the first four failures are
`validationError`s, a missing series is a `missingDataError` naming the first
such asset; allocations summing to 99 are rejected while 100.005 passes. -/
theorem claim_C3 (allocations : List PortfolioAllocation) (pm : AssetPriceMap)
    (params : BacktestParams) :
    ((∃ e, validateInputs allocations pm params = .error e) ↔
      (allocations = [] ∨ |totalAllocation allocations - 100| > 1/100 ∨
       params.initialInvestment ≤ 0 ∨ params.endDate ≤ params.startDate ∨
       ∃ a ∈ allocations, pm a.asset_id = [])) ∧
    ((allocations = [] ∨ |totalAllocation allocations - 100| > 1/100 ∨
       params.initialInvestment ≤ 0 ∨ params.endDate ≤ params.startDate) →
      ∃ msg, validateInputs allocations pm params = .error (.validationError msg)) ∧
    (∀ a : PortfolioAllocation,
      allocations.find? (fun x => (pm x.asset_id).isEmpty) = some a →
      |totalAllocation allocations - 100| ≤ 1/100 →
      0 < params.initialInvestment → params.startDate < params.endDate →
      validateInputs allocations pm params = .error (.missingDataError a.asset_id)) ∧
    (validateInputs [⟨"A", 99⟩] pmScenB paramsScenB =
      .error (.validationError "Portfolio allocations must sum to 100%")) ∧
    (validateInputs [⟨"A", 100.005⟩] pmScenB paramsScenB = .ok ()) := by
  refine ⟨?_, ?_, ?_, by decide, by decide⟩
  · have hok := validateInputs_ok_iff allocations pm params
    constructor
    · intro ⟨e, he⟩
      by_contra hc
      push_neg at hc
      have : validateInputs allocations pm params = .ok () :=
        hok.2 ⟨hc.1, hc.2.1, hc.2.2.1, hc.2.2.2.1, hc.2.2.2.2⟩
      rw [this] at he
      cases he
    · intro hcond
      cases hv : validateInputs allocations pm params with
      | error e => exact ⟨e, rfl⟩
      | ok u =>
        cases u
        rcases hok.1 hv with ⟨h1, h2, h3, h4, h5⟩
        rcases hcond with hc | hc | hc | hc | ⟨a, ha, hemp⟩
        · exact absurd hc h1
        · exact absurd hc (not_lt.2 h2)
        · exact absurd hc (not_le.2 h3)
        · exact absurd hc (not_le.2 h4)
        · exact absurd hemp (h5 a ha)
  · intro hcond
    unfold validateInputs
    split_ifs with h1 h2 h3 h4
    · exact ⟨_, rfl⟩
    · exact ⟨_, rfl⟩
    · exact ⟨_, rfl⟩
    · exact ⟨_, rfl⟩
    · exfalso
      rcases hcond with hc | hc | hc | hc
      · exact h1 (by simp [hc])
      · exact h2 hc
      · exact h3 (by simpa using hc)
      · exact h4 (by omega)
  · intro a hfind hsum hinv hdate
    unfold validateInputs
    split_ifs with h1 h2 h3 h4
    · exfalso
      have : allocations = [] := List.length_eq_zero.1 h1
      rw [this] at hfind
      cases hfind
    · exact absurd h2 (not_lt.2 hsum)
    · exact absurd h3 (by simpa using hinv)
    · exact absurd h4 (by omega)
    · rw [hfind]

/-- Witness for C3 at a concrete missing-data input. -/
theorem claim_C3_witness :
    validateInputs [⟨"B", 100⟩] pmScenB paramsScenB =
      .error (.missingDataError "B") :=
  (claim_C3 [⟨"B", 100⟩] pmScenB paramsScenB).2.2.1 ⟨"B", 100⟩
    (by decide) (by decide) (by decide) (by decide)

/-- C2 counterexample: on the non-empty series `[(date 5, close 0)]` with
target date 3, no earlier data exists and the nearest later date has close
price `0`, yet `getPrice` yields `none` (the source's `|| null`), not that
close price as the claim states. -/
theorem claim_C2_counterexample :
    pdZero ≠ [] ∧ (∀ q ∈ pdZero, ¬ q.date ≤ 3) ∧ pdZero.head? = some ⟨5, 0⟩ ∧
      getPrice pdZero 3 = none ∧ getPrice pdZero 3 ≠ some (0 : ℚ) := by decide

/-- C2 (amended): `getPrice` resolves to the exact-date close when present,
else to the close of the most recent earlier date, else (only when no
earlier data exists) to the close of the nearest later date provided that
close is nonzero — a zero close in the nearest-later branch yields `null`;
and with price data missing for the last 10 days of the range the
`PerformancePoint`s for those days are still emitted from the last known
close, not an error. -/
theorem claim_C2 (pd : List PriceData) (t : Nat) :
    ((∃ p ∈ pd, p.date = t) → ∃ p ∈ pd, p.date = t ∧ getPrice pd t = some p.close_price) ∧
    ((∀ p ∈ pd, p.date ≠ t) → (∃ p ∈ pd, p.date ≤ t) →
      ∃ p ∈ pd, p.date ≤ t ∧ (∀ q ∈ pd, q.date ≤ t → q.date ≤ p.date) ∧
        getPrice pd t = some p.close_price) ∧
    ((∀ p ∈ pd, ¬ p.date ≤ t) → pd ≠ [] →
      ∃ p ∈ pd, t ≤ p.date ∧ (∀ q ∈ pd, p.date ≤ q.date) ∧
        getPrice pd t = (if p.close_price = 0 then none else some p.close_price)) ∧
    (simulate allocScenB pmScenC paramsScenC).map (fun p => p.value) =
      [1000, 1100, 1100, 1100, 1100, 1100, 1100, 1100, 1100, 1100, 1100, 1100] :=
  ⟨getPrice_exact pd t, getPrice_previous pd t, getPrice_future pd t, by decide⟩

/-- Witness for C2 (exact-date branch at scenario-B data). -/
theorem claim_C2_witness :
    (∃ p ∈ pdScenB, p.date = 2) ∧
      ∃ p ∈ pdScenB, p.date = 2 ∧ getPrice pdScenB 2 = some p.close_price :=
  ⟨by decide, (claim_C2 pdScenB 2).1 (by decide)⟩

/-- After the allocation fold, any allocation whose price resolves to a
truthy value holds a share entry. -/
theorem foldl_allocStep_isSome_of_mem (pm : AssetPriceMap) (amount : ℚ) (d : Nat)
    (allocs : List PortfolioAllocation) (a : PortfolioAllocation) (ha : a ∈ allocs)
    (hres : ∃ p, getPrice (pm a.asset_id) d = some p ∧ p ≠ 0) :
    ∀ sh : Shares, (getShare (allocs.foldl (allocStep pm amount d) sh) a.asset_id).isSome = true := by
  induction allocs with
  | nil => cases ha
  | cons b bs ih =>
    intro sh
    rcases List.mem_cons.1 ha with rfl | ha2
    · obtain ⟨p, hp, hpz⟩ := hres
      have hstep : allocStep pm amount d sh a =
          setShare sh a.asset_id ((a.percentage / 100) * amount / p) := by
        unfold allocStep
        rw [hp]
        simp [hpz]
      rw [List.foldl_cons, hstep]
      exact foldl_allocStep_isSome pm amount d bs a.asset_id _
        (by rw [getShare_setShare_self]; rfl)
    · rw [List.foldl_cons]
      exact ih ha2 _

/-- C10 counterexample: the claim's "null branch is reachable only on an
empty series" fails — `pmZero "B"` is non-empty, validation passes, yet
`getPrice` returns `none` at the start date and `initializeShares` leaves
the allocated asset without a share entry. -/
theorem claim_C10_counterexample :
    pmZero "B" ≠ [] ∧ getPrice (pmZero "B") 0 = none ∧
      validateInputs [⟨"B", 100⟩] pmZero ⟨0, 1, 1000, .NEVER⟩ = .ok () ∧
      getShare (initializeShares [⟨"B", 100⟩] pmZero 1000 0) "B" = none := by decide

/-- C10 (amended): for every non-empty price series with no zero close
price, `getPrice` returns a price at every target date (even when all data
lies strictly after the range); consequently, once validation has passed
and the allocated assets' series contain no zero close, `initializeShares`
assigns a share count to every allocated asset. -/
theorem claim_C10 :
    (∀ (pd : List PriceData) (t : Nat), pd ≠ [] → (∀ q ∈ pd, q.close_price ≠ 0) →
      (getPrice pd t).isSome = true) ∧
    (∀ (allocations : List PortfolioAllocation) (pm : AssetPriceMap) (params : BacktestParams),
      validateInputs allocations pm params = .ok () →
      (∀ a ∈ allocations, ∀ q ∈ pm a.asset_id, q.close_price ≠ 0) →
      ∀ a ∈ allocations,
        (getShare (initializeShares allocations pm params.initialInvestment params.startDate)
          a.asset_id).isSome = true) := by
  refine ⟨fun pd t => getPrice_isSome pd t, ?_⟩
  intro allocations pm params hok hnz a ha
  have hne : pm a.asset_id ≠ [] :=
    ((validateInputs_ok_iff allocations pm params).1 hok).2.2.2.2 a ha
  have hsome := getPrice_isSome (pm a.asset_id) params.startDate hne (hnz a ha)
  obtain ⟨p, hp⟩ := Option.isSome_iff_exists.1 hsome
  obtain ⟨q, hqmem, hqc⟩ := getPrice_mem _ _ _ hp
  have hpz : p ≠ 0 := hqc ▸ hnz a ha q hqmem
  exact foldl_allocStep_isSome_of_mem pm params.initialInvestment params.startDate
    allocations a ha ⟨p, hp, hpz⟩ []

/-- Witness for C10 at the scenario-B input. -/
theorem claim_C10_witness :
    validateInputs allocScenB pmScenB paramsScenB = .ok () ∧
      (getShare (initializeShares allocScenB pmScenB 1000 0) "A").isSome = true :=
  ⟨by decide,
    claim_C10.2 allocScenB pmScenB paramsScenB (by decide) (by decide) ⟨"A", 100⟩ (by decide)⟩

/-- C9: immediately after the initial purchase step and before any
rebalance, each allocation with a truthy resolved start price satisfies
`shares[asset] * price(asset, startDate) / initialInvestment = percentage / 100`
exactly, in exact arithmetic. -/
theorem claim_C9 (allocations : List PortfolioAllocation) (pm : AssetPriceMap)
    (initialInvestment : ℚ) (startDate : Nat) (a : PortfolioAllocation) (p : ℚ)
    (hnd : (allocations.map (fun x => x.asset_id)).Nodup) (ha : a ∈ allocations)
    (hp : getPrice (pm a.asset_id) startDate = some p) (hpz : p ≠ 0)
    (hI : initialInvestment ≠ 0) :
    ∃ s, getShare (initializeShares allocations pm initialInvestment startDate) a.asset_id =
        some s ∧ s * p / initialInvestment = a.percentage / 100 := by
  refine ⟨(a.percentage / 100) * initialInvestment / p,
    foldl_allocStep_getShare pm initialInvestment startDate allocations a p hnd ha hp hpz [], ?_⟩
  field_simp
  ring

/-- Witness for C9 at the scenario-B input. -/
theorem claim_C9_witness :
    ∃ s, getShare (initializeShares allocScenB pmScenB 1000 0) "A" = some s ∧
      s * 100 / 1000 = (100 : ℚ) / 100 :=
  claim_C9 allocScenB pmScenB 1000 0 ⟨"A", 100⟩ 100
    (by decide) (by decide) (by decide) (by decide) (by decide)

theorem natCast_tmod (m n : Nat) : ((m : Int)).tmod (n : Int) = ((m % n : Nat) : Int) := by
  rw [Int.tmod_eq_emod (by positivity) (by positivity)]
  push_cast
  rfl

/-- The modulus test of `shouldRebalance` coincides with the `Nat`
remainder once the current date is at or after the start date. -/
theorem tmod_eq_zero_iff (c s k : Nat) (h : s ≤ c) :
    ((((c : Int) - (s : Int)).tmod (k : Int)) == 0) = true ↔ (c - s) % k = 0 := by
  have hcast : (c : Int) - (s : Int) = ((c - s : Nat) : Int) := by omega
  rw [hcast, natCast_tmod]
  simp only [beq_iff_eq]
  omega

/-- C4: with `NEVER` a rebalance never occurs; with `MONTHLY`, `QUARTERLY`
or `ANNUALLY` the rebalance test succeeds exactly when `daysSinceStart`
is divisible by 30, 90 or 365, and the simulation applies it on every such
day except the first (`i = 0` leaves the shares untouched); on a rebalance
day the shares of every allocation with a truthy resolved price are reset
to `(percentage / 100) * preRebalanceValue / price`, where the
pre-rebalance value is the portfolio value of the old holdings that day,
and the emitted value is computed from the rebalanced holdings. -/
theorem claim_C4 :
    (∀ c s : Nat, shouldRebalance c s .NEVER = false) ∧
    (∀ c s : Nat, s ≤ c →
      ((shouldRebalance c s .MONTHLY = true ↔ (c - s) % 30 = 0) ∧
       (shouldRebalance c s .QUARTERLY = true ↔ (c - s) % 90 = 0) ∧
       (shouldRebalance c s .ANNUALLY = true ↔ (c - s) % 365 = 0))) ∧
    (∀ (A : List PortfolioAllocation) (pm : AssetPriceMap) (f : RebalanceFrequency)
       (s : Nat) (sh : Shares) (c : Nat), stepShares A pm f s 0 sh c = sh) ∧
    (∀ (A : List PortfolioAllocation) (pm : AssetPriceMap) (f : RebalanceFrequency)
       (s i : Nat) (sh : Shares) (c : Nat), ¬ shouldRebalance c s f = true →
      stepShares A pm f s i sh c = sh) ∧
    (∀ (A : List PortfolioAllocation) (pm : AssetPriceMap) (f : RebalanceFrequency)
       (s i : Nat) (sh : Shares) (c : Nat), shouldRebalance c s f = true → 0 < i →
      stepShares A pm f s i sh c =
        rebalancePortfolio A pm (calculatePortfolioValue sh pm c) sh c) ∧
    (∀ (A : List PortfolioAllocation) (pm : AssetPriceMap) (V : ℚ) (sh : Shares)
       (c : Nat) (a : PortfolioAllocation) (p : ℚ),
      (A.map (fun x => x.asset_id)).Nodup → a ∈ A →
      getPrice (pm a.asset_id) c = some p → p ≠ 0 →
      getShare (rebalancePortfolio A pm V sh c) a.asset_id =
        some ((a.percentage / 100) * V / p)) ∧
    (∀ (A : List PortfolioAllocation) (pm : AssetPriceMap) (I : ℚ)
       (f : RebalanceFrequency) (s i : Nat) (prev : ℚ) (sh : Shares) (c : Nat)
       (rest : List Nat), shouldRebalance c s f = true → 0 < i →
      (simAux A pm I f s i prev sh (c :: rest)).head?.map (fun p => p.value) =
        some (calculatePortfolioValue
          (rebalancePortfolio A pm (calculatePortfolioValue sh pm c) sh c) pm c)) := by
  refine ⟨fun c s => rfl, ?_, ?_, ?_, ?_, ?_, ?_⟩
  · intro c s h
    exact ⟨tmod_eq_zero_iff c s 30 h, tmod_eq_zero_iff c s 90 h, tmod_eq_zero_iff c s 365 h⟩
  · intro A pm f s sh c
    simp [stepShares]
  · intro A pm f s i sh c hnot
    simp [stepShares, hnot]
  · intro A pm f s i sh c hdue hi
    simp [stepShares, hdue, hi]
  · intro A pm V sh c a p hnd ha hp hpz
    exact foldl_allocStep_getShare pm V c A a p hnd ha hp hpz sh
  · intro A pm I f s i prev sh c rest hdue hi
    simp [simAux, stepShares, hdue, hi]

/-- Witness for C4: day 30 of a `MONTHLY` schedule triggers a rebalance
test and the 60%-allocation share is reset against the resolved price. -/
theorem claim_C4_witness :
    (0 : Nat) ≤ 30 ∧ (shouldRebalance 30 0 .MONTHLY = true ↔ (30 - 0) % 30 = 0) :=
  ⟨by decide, (claim_C4.2.1 30 0 (by decide)).1⟩

/-! ### Shape lemmas about the monthly-returns loop -/

theorem get_congr {α : Type u} {l l2 : List α} (h : l = l2) (i : Nat)
    (hi : i < l.length) (hi2 : i < l2.length) :
    l.get ⟨i, hi⟩ = l2.get ⟨i, hi2⟩ := by
  subst h
  rfl

theorem mrAux_length (ps : List PerformancePoint) (ks : List Nat) :
    ∀ prev : Option (List PerformancePoint), (mrAux ps prev ks).length = ks.length := by
  induction ks with
  | nil => intro prev; rfl
  | cons k rest ih => intro prev; simp [mrAux, ih]

theorem mrAux_map_key (ps : List PerformancePoint) (ks : List Nat) :
    ∀ prev : Option (List PerformancePoint),
      (mrAux ps prev ks).map (fun r => r.year * 100 + r.month) = ks := by
  induction ks with
  | nil => intro prev; rfl
  | cons k rest ih =>
    intro prev
    simp only [mrAux, List.map_cons, ih]
    congr 1
    omega

theorem mrAux_get_value (ps : List PerformancePoint) (ks : List Nat) :
    ∀ (prev : Option (List PerformancePoint)) (j : Nat)
      (h : j < (mrAux ps prev ks).length) (h2 : j < ks.length),
      ((mrAux ps prev ks).get ⟨j, h⟩).value = lastVal (monthGroup ps (ks.get ⟨j, h2⟩)) := by
  induction ks with
  | nil => intro prev j h h2; simp at h2
  | cons k rest ih =>
    intro prev j h h2
    cases j with
    | zero => simp [mrAux]
    | succ j => simpa only [mrAux, List.get_cons_succ] using ih (some (monthGroup ps k)) j _ _

theorem mrAux_first_ret (ps : List PerformancePoint) (ks : List Nat)
    (h : 0 < (mrAux ps none ks).length) :
    ((mrAux ps none ks).get ⟨0, h⟩).ret = 0 := by
  cases ks with
  | nil => simp [mrAux] at h
  | cons k rest => simp [mrAux]

theorem mrAux_ret_succ (ps : List PerformancePoint) (ks : List Nat) :
    ∀ (prev : Option (List PerformancePoint)) (j : Nat)
      (h : j + 1 < (mrAux ps prev ks).length),
      ((mrAux ps prev ks).get ⟨j + 1, h⟩).ret =
        (((mrAux ps prev ks).get ⟨j + 1, h⟩).value -
            ((mrAux ps prev ks).get ⟨j, Nat.lt_of_succ_lt h⟩).value) /
          ((mrAux ps prev ks).get ⟨j, Nat.lt_of_succ_lt h⟩).value := by
  induction ks with
  | nil => intro prev j h; simp [mrAux] at h
  | cons k rest ih =>
    intro prev j h
    cases j with
    | zero =>
      cases rest with
      | nil =>
        rw [mrAux_length] at h
        exact absurd h (by simp)
      | cons k2 rest2 => simp [mrAux]
    | succ j => simpa only [mrAux, List.get_cons_succ] using ih (some (monthGroup ps k)) j _

/-- C5: the monthly-returns breakdown has exactly one entry per calendar
month touched by the series (its keys are the distinct month keys of the
series, without duplicates); the first entry's return is 0 by convention,
every entry's value is the last value of its month, and every later entry's
return is `(last value of that month - last value of the prior month) /
last value of the prior month`. -/
theorem claim_C5 (ps : List PerformancePoint) :
    ((generateMonthlyReturns ps).map (fun r => r.year * 100 + r.month) = monthKeys ps) ∧
    (∀ k, k ∈ monthKeys ps ↔ ∃ p ∈ ps, monthKeyOfDay p.date = k) ∧
    ((monthKeys ps).Nodup) ∧
    (∀ h : 0 < (generateMonthlyReturns ps).length,
      ((generateMonthlyReturns ps).get ⟨0, h⟩).ret = 0) ∧
    (∀ (j : Nat) (h : j < (generateMonthlyReturns ps).length)
      (h2 : j < (monthKeys ps).length),
      ((generateMonthlyReturns ps).get ⟨j, h⟩).value =
        lastVal (monthGroup ps ((monthKeys ps).get ⟨j, h2⟩))) ∧
    (∀ (j : Nat) (h : j + 1 < (generateMonthlyReturns ps).length),
      ((generateMonthlyReturns ps).get ⟨j + 1, h⟩).ret =
        (((generateMonthlyReturns ps).get ⟨j + 1, h⟩).value -
            ((generateMonthlyReturns ps).get ⟨j, Nat.lt_of_succ_lt h⟩).value) /
          ((generateMonthlyReturns ps).get ⟨j, Nat.lt_of_succ_lt h⟩).value) := by
  have hkeys : ∀ k, k ∈ monthKeys ps ↔ ∃ p ∈ ps, monthKeyOfDay p.date = k := by
    intro k
    unfold monthKeys
    rw [mem_sortByBool, List.mem_dedup, List.mem_map]
  have hnodup : (monthKeys ps).Nodup := by
    unfold monthKeys
    exact (sortByBool_perm _ _).nodup_iff.2 (List.nodup_dedup _)
  by_cases hlen : ps.length = 0
  · have hps : ps = [] := List.length_eq_zero.1 hlen
    subst hps
    refine ⟨rfl, hkeys, hnodup, ?_, ?_, ?_⟩
    · intro h
      exact absurd h (by simp [generateMonthlyReturns])
    · intro j h h2
      exact absurd h (by simp [generateMonthlyReturns])
    · intro j h
      exact absurd h (by simp [generateMonthlyReturns])
  · have hgen : generateMonthlyReturns ps = mrAux ps none (monthKeys ps) := by
      unfold generateMonthlyReturns
      rw [if_neg hlen]
    refine ⟨?_, hkeys, hnodup, ?_, ?_, ?_⟩
    · rw [hgen, mrAux_map_key]
    · intro h
      have hb : 0 < (mrAux ps none (monthKeys ps)).length := by rwa [hgen] at h
      rw [get_congr hgen 0 h hb]
      exact mrAux_first_ret ps (monthKeys ps) hb
    · intro j h h2
      have hb : j < (mrAux ps none (monthKeys ps)).length := by rwa [hgen] at h
      rw [get_congr hgen j h hb]
      exact mrAux_get_value ps (monthKeys ps) none j hb h2
    · intro j h
      have hb : j + 1 < (mrAux ps none (monthKeys ps)).length := by rwa [hgen] at h
      have e1 := get_congr hgen (j + 1) h hb
      have e2 := get_congr hgen j (Nat.lt_of_succ_lt h) (Nat.lt_of_succ_lt hb)
      rw [e1, e2]
      exact mrAux_ret_succ ps (monthKeys ps) none j hb

/-- Witness for C5: the scenario-B series touches a single month whose
entry has return 0. -/
theorem claim_C5_witness :
    0 < (generateMonthlyReturns (simulate allocScenB pmScenB paramsScenB)).length ∧
      ((generateMonthlyReturns (simulate allocScenB pmScenB paramsScenB)).get
        ⟨0, by decide⟩).ret = 0 :=
  ⟨by decide, (claim_C5 (simulate allocScenB pmScenB paramsScenB)).2.2.2.1 (by decide)⟩

/-! ### The real-valued metric formulas -/

/-- The coercion of a rational list into the reals, made explicit to keep
elaboration unambiguous. -/
noncomputable def castList (l : List ℚ) : List ℝ :=
  l.map (fun q => ((q : ℚ) : ℝ))

theorem cast_list_sum (l : List ℚ) : ((l.sum : ℚ) : ℝ) = (castList l).sum := by
  induction l with
  | nil => simp [castList]
  | cons x xs ih => simp [castList, ih]

/-- The population (not sample) standard deviation of a list of reals,
written from the spec's words: the refinement target that
`calculateVolatility` is compared against. -/
noncomputable def popStdDev (l : List ℝ) : ℝ :=
  Real.sqrt ((l.map (fun r => (r - l.sum / (l.length : ℝ)) ^ 2)).sum / (l.length : ℝ))

theorem varianceOf_cast (rs : List ℚ) :
    ((varianceOf rs : ℚ) : ℝ) =
      ((castList rs).map
        (fun r => (r - (castList rs).sum / ((castList rs).length : ℝ)) ^ 2)).sum /
        ((castList rs).length : ℝ) := by
  unfold varianceOf meanOf castList
  rw [foldl_add_eq_sum, foldl_id_eq_sum, zero_add, zero_add]
  rw [List.map_map, List.length_map]
  rw [Rat.cast_div]
  have hsum := cast_list_sum (rs.map (fun r => (r - rs.sum / (rs.length : ℚ)) ^ 2))
  unfold castList at hsum
  rw [hsum, List.map_map]
  congr 1
  congr 1
  apply List.map_congr_left
  intro q hq
  simp only [Function.comp]
  push_cast [cast_list_sum]
  rfl

theorem calculateVolatility_eq_popStdDev (rs : List ℚ) :
    calculateVolatility rs = popStdDev (castList rs) * Real.sqrt 252 := by
  unfold calculateVolatility popStdDev
  by_cases h : rs.length = 0
  · rw [if_pos h]
    have hnil : rs = [] := List.length_eq_zero.1 h
    subst hnil
    simp [castList]
  · rw [if_neg h, varianceOf_cast]

theorem calculateVolatility_nonneg (rs : List ℚ) : 0 ≤ calculateVolatility rs := by
  unfold calculateVolatility
  split
  · exact le_refl 0
  · positivity

theorem calculateDownsideDeviation_nonneg (rs : List ℚ) :
    0 ≤ calculateDownsideDeviation rs := by
  unfold calculateDownsideDeviation
  split
  · exact le_refl 0
  · positivity

/-- C7: for every non-empty performance series, the annualized return is
`(1 + totalReturn) ^ (365 / totalDays) - 1` with `totalDays` the number of
emitted `PerformancePoint`s (calendar days), and the volatility is the
population standard deviation of the daily returns of all days except the
first, multiplied by `sqrt 252`. -/
theorem claim_C7 (ps : List PerformancePoint) (I : ℚ) (h : ps ≠ []) :
    annualizedReturnOf ps I =
      (1 + (totalReturnOf ps I : ℝ)) ^ ((365 : ℝ) / (ps.length : ℝ)) - 1 ∧
    calculateVolatility (dailyReturnsOf ps) =
      popStdDev (castList ((ps.drop 1).map (fun p => p.dailyReturn))) *
        Real.sqrt 252 := by
  constructor
  · unfold annualizedReturnOf
    rw [if_pos (List.length_pos.2 h)]
  · exact calculateVolatility_eq_popStdDev (dailyReturnsOf ps)

/-- Witness for C7 at the scenario-B input. -/
theorem claim_C7_witness :
    simulate allocScenB pmScenB paramsScenB ≠ [] ∧
      annualizedReturnOf (simulate allocScenB pmScenB paramsScenB) 1000 =
        (1 + (totalReturnOf (simulate allocScenB pmScenB paramsScenB) 1000 : ℝ)) ^
          ((365 : ℝ) / ((simulate allocScenB pmScenB paramsScenB).length : ℝ)) - 1 :=
  ⟨by decide, (claim_C7 (simulate allocScenB pmScenB paramsScenB) 1000 (by decide)).1⟩

/-- C8: the degenerate-statistics sentinels — the Sharpe ratio is 0 at zero
volatility and otherwise `(annualizedReturn - 0.02) / volatility`; the
Sortino ratio is 0 when there are no negative daily returns and otherwise
has the same `- 0.02` numerator over the annualized downside deviation
(real division by a zero downside deviation is 0 in this model, matching
the source's 0 guard); the gain-to-loss ratio is `⊤` (Infinity) exactly
when there is a positive daily return and no negative one, and 0 when
there are no positive daily returns. -/
theorem claim_C8 (ps : List PerformancePoint) (I : ℚ) (rs : List ℚ) :
    (sharpeRatioOf ps I =
      if calculateVolatility (dailyReturnsOf ps) = 0 then 0
      else (annualizedReturnOf ps I - 0.02) / calculateVolatility (dailyReturnsOf ps)) ∧
    (calculateSortinoRatio ps =
      if (dailyReturnsOf ps).filter (fun r => decide (r < 0)) = [] then 0
      else (calculateAnnualizedReturn ps - 0.02) /
        calculateDownsideDeviation (dailyReturnsOf ps)) ∧
    (calculateGainToLossRatio rs = ⊤ ↔
      (rs.filter (fun r => decide (0 < r)) ≠ [] ∧ rs.filter (fun r => decide (r < 0)) = [])) ∧
    (rs.filter (fun r => decide (0 < r)) = [] → calculateGainToLossRatio rs = 0) := by
  refine ⟨?_, ?_, ?_, ?_⟩
  · unfold sharpeRatioOf
    rcases (calculateVolatility_nonneg (dailyReturnsOf ps)).lt_or_eq with hv | hv
    · rw [if_pos hv, if_neg (ne_of_gt hv)]
    · rw [if_neg (by rw [← hv]; exact lt_irrefl 0), if_pos hv.symm]
  · unfold calculateSortinoRatio
    by_cases hl : ps.length = 0
    · rw [if_pos hl]
      have hnil : ps = [] := List.length_eq_zero.1 hl
      subst hnil
      simp [dailyReturnsOf]
    · rw [if_neg hl]
      by_cases hneg : (dailyReturnsOf ps).filter (fun r => decide (r < 0)) = []
      · have hdd : calculateDownsideDeviation (dailyReturnsOf ps) = 0 := by
          unfold calculateDownsideDeviation
          rw [hneg]
          simp
        rw [if_pos hneg, hdd, if_neg (lt_irrefl 0)]
      · rw [if_neg hneg]
        rcases (calculateDownsideDeviation_nonneg (dailyReturnsOf ps)).lt_or_eq with hdd | hdd
        · rw [if_pos hdd]
        · rw [if_neg (by rw [← hdd]; exact lt_irrefl 0), ← hdd, div_zero]
  · simp only [calculateGainToLossRatio]
    split_ifs with h1 h2 h3
    · simp only [List.length_eq_zero] at h1
      have h2ne : rs.filter (fun r => decide (0 < r)) ≠ [] := by
        intro hc
        rw [hc] at h2
        simp at h2
      simp [h1, h2ne]
    · simp only [List.length_eq_zero] at h1
      have h2e : rs.filter (fun r => decide (0 < r)) = [] := by
        rcases List.eq_nil_or_concat (rs.filter (fun r => decide (0 < r))) with he | ⟨l, a, he⟩
        · exact he
        · exfalso
          apply h2
          rw [he]
          simp
      simp [h1, h2e]
    · constructor
      · intro hc
        exact absurd hc (by simp)
      · rintro ⟨hg, hl⟩
        exact absurd (List.length_eq_zero.2 hl) h1
    · constructor
      · intro hc
        exact absurd hc (by simp)
      · rintro ⟨hg, hl⟩
        exact absurd (List.length_eq_zero.2 hl) h1
  · intro hg
    simp only [calculateGainToLossRatio]
    split_ifs with h1 h2 h3
    · exfalso
      rw [hg] at h2
      simp at h2
    · rfl
    · rfl
    · exfalso
      exact h3 (List.length_eq_zero.2 hg)

/-- Witness for C8 at a list with one negative daily return. -/
theorem claim_C8_witness :
    ([(-1/2 : ℚ)].filter (fun r => decide (0 < r)) = []) ∧
      calculateGainToLossRatio [(-1/2 : ℚ)] = 0 :=
  ⟨by decide,
    (claim_C8 (simulate allocScenB pmScenB paramsScenB) 1000 [(-1/2 : ℚ)]).2.2.2 (by decide)⟩

end EuroFolio
